import Mathlib

/-!
Verification of the elevation-tile fetcher (`build_elevation/main.py`).

The development embeds the program shallowly:

* tile naming (`download_tile`, lines 44-46): pure functions on `Int`
  coordinates producing `String`s; Python `'%02d' % n` / `'%03d' % n`
  formatting of nonnegative numbers is embedded as decimal digit lists
  left-padded with `'0'` to the requested minimum width;
* the 1x1 degree grid (`create_grid_from_bounds`): a list of integer
  southwest corners;
* polygon geometry (the `shapely` library calls `poly.bounds`,
  `poly.intersects`, `Polygon(...)`): vertices are rational points;
  `bounds` is the min/max over the vertices; membership in the interior
  of the (closed) ring is the standard even-odd crossing rule; the
  polygon/cell intersection test is the standard closed-region test
  (vertex containment or boundary crossing);
* the side-effecting part of `download_tile` and of `main`: an explicit
  state (`TState`) recording created directories, files on disk and the
  sequence of network fetches, threaded through executable functions.
-/

/-! ## Decimal formatting (embedding of Python `%02d` / `%03d`) -/

/-- Fuel-indexed decimal digit printer: `decCharsAux fuel n` is the list of
decimal digit characters of `n`, most significant first, provided
`n < 10 ^ fuel`. -/
def decCharsAux : Nat → Nat → List Char
  | 0, _ => []
  | fuel + 1, n =>
    if n < 10 then [Nat.digitChar n]
    else decCharsAux fuel (n / 10) ++ [Nat.digitChar (n % 10)]

/-- Decimal digit characters of `n`, most significant first; what Python
`'%d' % n` prints for a nonnegative `n`. -/
def decChars (n : Nat) : List Char := decCharsAux (n + 1) n

/-- Left-pad a character list with `'0'` to minimum width `w`; together with
`decChars` this embeds Python `'%0wd' % n` for nonnegative `n`. -/
def zeroPad (w : Nat) (s : List Char) : List Char :=
  List.replicate (w - s.length) '0' ++ s

/-- Embedding of the Python format expression `'%0wd' % n` for `n ≥ 0`. -/
def fmtNat (w n : Nat) : List Char := zeroPad w (decChars n)

/-- Hemisphere letter of the latitude: the source expression
`'S' if y < 0 else 'N'`. -/
def hemiNS (y : Int) : Char := if y < 0 then 'S' else 'N'

/-- Hemisphere letter of the longitude: the source expression
`'W' if x < 0 else 'E'`. -/
def hemiWE (x : Int) : Char := if x < 0 then 'W' else 'E'

/-- Tile filename: the source line
`tile_name = '%s%02d%s%03d.hgt' % ('S' if y < 0 else 'N', abs(y), 'W' if x < 0 else 'E', abs(x))`. -/
def tile_name (x y : Int) : String :=
  String.mk (hemiNS y :: fmtNat 2 y.natAbs ++ hemiWE x :: fmtNat 3 x.natAbs ++ ".hgt".data)

/-- Remote directory name: the source line
`dir_name = '%s%02d' % ('S' if y < 0 else 'N', abs(y))`. -/
def dir_name (y : Int) : String :=
  String.mk (hemiNS y :: fmtNat 2 y.natAbs)

/-- Spec-side decimal representation, built from Mathlib `Nat.digits`
(little-endian) and reversed, to compare against the printer embedded from
the source. -/
def specDigits (n : Nat) : List Char :=
  if n = 0 then ['0'] else ((Nat.digits 10 n).map Nat.digitChar).reverse

/-- Numeric value of a decimal digit string, used to parse tile filenames. -/
def decValue (l : List Char) : Nat :=
  l.foldl (fun v c => v * 10 + (c.toNat - 48)) 0

/-- Parse a tile filename back into the (x, y) = (longitude, latitude)
coordinate it names. -/
def parseTileName (s : String) : Option (Int × Int) :=
  match s.data with
  | cLat :: d1 :: d2 :: cLon :: e1 :: e2 :: e3 :: rest =>
    if rest = ['.', 'h', 'g', 't'] ∧ (cLat = 'N' ∨ cLat = 'S') ∧ (cLon = 'E' ∨ cLon = 'W') then
      let lat : Int := decValue [d1, d2]
      let lon : Int := decValue [e1, e2, e3]
      some (if cLon = 'W' then -lon else lon, if cLat = 'S' then -lat else lat)
    else none
  | _ => none

/-- Parse a remote directory name back into the latitude it names. -/
def parseDirName (s : String) : Option Int :=
  match s.data with
  | [cLat, d1, d2] =>
    if cLat = 'N' ∨ cLat = 'S' then
      let lat : Int := decValue [d1, d2]
      some (if cLat = 'S' then -lat else lat)
    else none
  | _ => none

/-! ## Geometry: polygons, bounding boxes, the 1x1 grid -/
/-- A planar point in longitude/latitude degrees.  The source holds `float`
coordinates; the embedding uses `ℚ`. -/
abbrev Point := ℚ × ℚ

/-- Rational bounding box in the `shapely` order (minx, miny, maxx, maxy). -/
structure RatBounds where
  xmin : ℚ
  ymin : ℚ
  xmax : ℚ
  ymax : ℚ
deriving DecidableEq

/-- Integer bounding box: the `rounded_bounds` list
`[math.floor(x) if i < 2 else math.ceil(x) for i, x in enumerate(bounds)]`. -/
structure IntBounds where
  xmin : Int
  ymin : Int
  xmax : Int
  ymax : Int
deriving DecidableEq

/-- A 1x1 grid cell `box(x, y, x + 1, y + 1)`, identified by its southwest
corner, as produced by `create_grid_from_bounds` and consumed via
`grid_poly.bounds[0:2]`. -/
structure GridCell where
  x : Int
  y : Int
deriving DecidableEq

/-- Edge list of a closed ring given the ring's first vertex: consecutive
vertex pairs, the last vertex joined back to the first. -/
def edgesAux (first : Point) : List Point → List (Point × Point)
  | [] => []
  | [a] => [(a, first)]
  | a :: b :: t => (a, b) :: edgesAux first (b :: t)

/-- Edges of the closed ring through the given vertices (a `shapely`
`Polygon` closes its exterior ring implicitly). -/
def edges : List Point → List (Point × Point)
  | [] => []
  | v :: vs => edgesAux v (v :: vs)

/-- Twice the signed area of the triangle (p, a, b): the cross product of
(a - p) and (b - p). -/
def crossD (p a b : Point) : ℚ :=
  (a.1 - p.1) * (b.2 - p.2) - (a.2 - p.2) * (b.1 - p.1)

/-- The edge straddles the horizontal line through `p` (half-open in y, as in
the standard even-odd rule). -/
def straddles (p : Point) (e : Point × Point) : Prop :=
  (e.1.2 ≤ p.2 ∧ p.2 < e.2.2) ∨ (e.2.2 ≤ p.2 ∧ p.2 < e.1.2)

instance (p : Point) (e : Point × Point) : Decidable (straddles p e) := by
  unfold straddles
  infer_instance

/-- The rightward horizontal ray from `p` properly crosses the edge: the edge
straddles `p`'s latitude and the ray meets it strictly right of `p`
(expressed division-free through the cross product). -/
def crossesRight (p : Point) (e : Point × Point) : Prop :=
  (e.1.2 ≤ p.2 ∧ p.2 < e.2.2 ∧ 0 < crossD p e.1 e.2) ∨
  (e.2.2 ≤ p.2 ∧ p.2 < e.1.2 ∧ crossD p e.1 e.2 < 0)

instance (p : Point) (e : Point × Point) : Decidable (crossesRight p e) := by
  unfold crossesRight
  infer_instance

/-- Crossing number of `p` with respect to the closed ring `vs`. -/
def crossingNumber (vs : List Point) (p : Point) : Nat :=
  (edges vs).countP (fun e => decide (crossesRight p e))

/-- Models "the point lies strictly inside the polygon": the even-odd
(crossing-parity) interior test used by computational-geometry libraries. -/
def strictlyInside (vs : List Point) (p : Point) : Prop :=
  crossingNumber vs p % 2 = 1

instance (vs : List Point) (p : Point) : Decidable (strictlyInside vs p) := by
  unfold strictlyInside
  infer_instance

/-- Models `shapely` `poly.bounds`: componentwise min/max over the vertices
(meaningful only for a nonempty vertex list, as in the source, where a
polygon always has at least 3 vertices). -/
def bounds : List Point → RatBounds
  | [] => ⟨0, 0, 0, 0⟩
  | v :: rest =>
    ⟨(rest.map Prod.fst).foldl min v.1, (rest.map Prod.snd).foldl min v.2,
     (rest.map Prod.fst).foldl max v.1, (rest.map Prod.snd).foldl max v.2⟩

/-- The source line
`rounded_bounds = [math.floor(x) if i < 2 else math.ceil(x) for i, x in enumerate(bounds)]`. -/
def roundedBounds (vs : List Point) : IntBounds :=
  ⟨⌊(bounds vs).xmin⌋, ⌊(bounds vs).ymin⌋, ⌈(bounds vs).xmax⌉, ⌈(bounds vs).ymax⌉⟩

/-- Embedding of Python `range(a, b)` over integers. -/
def intRange (a b : Int) : List Int :=
  (List.range (b - a).toNat).map (fun (i : Nat) => a + (i : Int))

/-- The source function `create_grid_from_bounds`: nested loops
`for x in range(bounds[0], bounds[2]): for y in range(bounds[1], bounds[3])`
appending `box(x, y, x + 1, y + 1)`. -/
def create_grid_from_bounds (b : IntBounds) : List GridCell :=
  (intRange b.xmin b.xmax).flatMap (fun x => (intRange b.ymin b.ymax).map (fun y => ⟨x, y⟩))

/-- The closed cell region `[x, x + 1] × [y, y + 1]` contains the point. -/
def pointInCell (c : GridCell) (p : Point) : Prop :=
  (c.x : ℚ) ≤ p.1 ∧ p.1 ≤ (c.x : ℚ) + 1 ∧ (c.y : ℚ) ≤ p.2 ∧ p.2 ≤ (c.y : ℚ) + 1

instance (c : GridCell) (p : Point) : Decidable (pointInCell c p) := by
  unfold pointInCell
  infer_instance

/-! ### Even-odd crossing parity -/
/-- Boolean flag: the vertex lies strictly above the horizontal line
through `p`. -/
def sFlag (p v : Point) : Bool := decide (p.2 < v.2)

/-! ### Polygon/cell intersection (modelling shapely `poly.intersects`) -/
/-- Orientation: twice the signed area of the triangle (a, b, c). -/
def orient (a b c : Point) : ℚ :=
  (b.1 - a.1) * (c.2 - a.2) - (b.2 - a.2) * (c.1 - a.1)

/-- The point `q` lies on the closed segment from `a` to `b`. -/
def onSeg (a b q : Point) : Prop :=
  orient a b q = 0 ∧ min a.1 b.1 ≤ q.1 ∧ q.1 ≤ max a.1 b.1 ∧
    min a.2 b.2 ≤ q.2 ∧ q.2 ≤ max a.2 b.2

instance (a b q : Point) : Decidable (onSeg a b q) := by
  unfold onSeg
  infer_instance

/-- Two closed segments share a point: the standard orientation test with
collinear overlap cases. -/
def segMeet (e1 e2 : Point × Point) : Prop :=
  let d1 := orient e2.1 e2.2 e1.1
  let d2 := orient e2.1 e2.2 e1.2
  let d3 := orient e1.1 e1.2 e2.1
  let d4 := orient e1.1 e1.2 e2.2
  (d1 * d2 < 0 ∧ d3 * d4 < 0) ∨
  (d1 = 0 ∧ onSeg e2.1 e2.2 e1.1) ∨ (d2 = 0 ∧ onSeg e2.1 e2.2 e1.2) ∨
  (d3 = 0 ∧ onSeg e1.1 e1.2 e2.1) ∨ (d4 = 0 ∧ onSeg e1.1 e1.2 e2.2)

instance (e1 e2 : Point × Point) : Decidable (segMeet e1 e2) := by
  unfold segMeet
  infer_instance

/-- The point lies in the closed region bounded by the ring: on its boundary
or strictly inside by the even-odd rule. -/
def pointInPoly (vs : List Point) (q : Point) : Prop :=
  (∃ e ∈ edges vs, onSeg e.1 e.2 q) ∨ strictlyInside vs q

instance (vs : List Point) (q : Point) : Decidable (pointInPoly vs q) := by
  unfold pointInPoly
  infer_instance

/-- Corner points of the closed cell `[x, x + 1] × [y, y + 1]`. -/
def cellCorners (c : GridCell) : List Point :=
  [((c.x : ℚ), (c.y : ℚ)), (((c.x + 1 : Int) : ℚ), (c.y : ℚ)),
   (((c.x + 1 : Int) : ℚ), ((c.y + 1 : Int) : ℚ)), ((c.x : ℚ), ((c.y + 1 : Int) : ℚ))]

/-- Models `poly.intersects(grid_poly)`: the closed polygon region and the
closed unit square share a point.  For simple rings this is equivalent to:
some polygon vertex lies in the cell, or some cell corner lies in the
polygon, or some polygon edge meets some cell edge. -/
def polyIntersectsCell (vs : List Point) (c : GridCell) : Prop :=
  (∃ v ∈ vs, pointInCell c v) ∨ (∃ q ∈ cellCorners c, pointInPoly vs q) ∨
  (∃ e1 ∈ edges vs, ∃ e2 ∈ edges (cellCorners c), segMeet e1 e2)

instance (vs : List Point) (c : GridCell) : Decidable (polyIntersectsCell vs c) := by
  unfold polyIntersectsCell
  infer_instance

/-! ## The side-effecting part: download state and the main loop -/
/-- World state threaded through `download_tile` and `main`: the set of
directories and files that exist (files carry their byte content), and the
ordered record of network fetches performed. -/
structure TState where
  dirs : List String
  files : List (String × String)
  fetched : List String
deriving DecidableEq

/-- Remote URL for a tile, as built in the source:
`http://s3.amazonaws.com/elevation-tiles-prod/skadi/{dir_name}/{tile_name}.gz`. -/
def tile_url (x y : Int) : String :=
  "http://s3.amazonaws.com/elevation-tiles-prod/skadi/" ++ dir_name y ++ "/" ++
    tile_name x y ++ ".gz"

/-- Local path of a tile below the output root:
`Path(directory, dir_name)` joined with the tile filename. -/
def tile_path (dir : String) (x y : Int) : String :=
  dir ++ "/" ++ dir_name y ++ "/" ++ tile_name x y

/-- The source function `download_tile`, with the ambient effects made
explicit: `fetch` maps a URL to the decompressed payload written on a cache
miss; `mkdir(exist_ok=True)` inserts the destination directory; the download
happens only `if not filepath.is_file()`. -/
def download_tile (fetch : String → String) (southwest : Int × Int) (directory : String)
    (st : TState) : TState :=
  let x := southwest.1
  let y := southwest.2
  let dest_directory := directory ++ "/" ++ dir_name y
  let st1 : TState :=
    { st with dirs := if dest_directory ∈ st.dirs then st.dirs else dest_directory :: st.dirs }
  let filepath := tile_path directory x y
  match st1.files.lookup filepath with
  | some _ => st1
  | none =>
    { st1 with
      files := (filepath, fetch (tile_url x y)) :: st1.files,
      fetched := st1.fetched ++ [tile_url x y] }

/-- One iteration of the inner loop of `main`:
`if poly.intersects(grid_poly): download_tile(sw, output_dir); total += 1`. -/
def processCell (fetch : String → String) (outDir : String) (vs : List Point)
    (acc : TState × Nat) (c : GridCell) : TState × Nat :=
  if polyIntersectsCell vs c then (download_tile fetch (c.x, c.y) outDir acc.1, acc.2 + 1)
  else acc

/-- One iteration of the outer loop of `main` over one polygon: compute the
rounded bounds, add the bounding-box cell count to `expected`, build the
grid and run the inner loop. -/
def processPoly (fetch : String → String) (outDir : String)
    (acc : Int × (TState × Nat)) (vs : List Point) : Int × (TState × Nat) :=
  let rb := roundedBounds vs
  ((acc.1 + (rb.xmax - rb.xmin) * (rb.ymax - rb.ymin)),
    (create_grid_from_bounds rb).foldl (processCell fetch outDir vs) acc.2)

/-- Effect of `output_dir.mkdir(exist_ok=True)` on the state. -/
def mkdirState (outDir : String) (st : TState) : TState :=
  { st with dirs := if outDir ∈ st.dirs then st.dirs else outDir :: st.dirs }

/-- Result of one invocation of `main`. -/
structure RunResult where
  criticalLog : Bool
  outDirCreated : Bool
  aborted : Bool
  expected : Int
  total : Nat
  st : TState

/-- The source function `main`, over the already-parsed polygons of the
`.geojson` files in the input directory.  When the input path is not a
directory, `LOGGER.critical` is emitted, the output directory is still
created (`output_dir.mkdir` precedes the loop), and then
`input_geojson_dir.resolve().iterdir()` raises, aborting the process before
any iteration of the loop - hence before any fetch. -/
def mainRun (fetch : String → String) (inputIsDir : Bool) (polys : List (List Point))
    (outDir : String) (st0 : TState) : RunResult :=
  let criticalLog := !inputIsDir
  let st1 : TState := mkdirState outDir st0
  if inputIsDir then
    let r := polys.foldl (processPoly fetch outDir) (0, (st1, 0))
    ⟨criticalLog, true, false, r.1, r.2.2, r.2.1⟩
  else
    ⟨criticalLog, true, true, 0, 0, st1⟩

/-- The downloads of a run, computed without any reference to the
`expected` counter: used to state that `expected` takes part in no control
decision. -/
def runDownloads (fetch : String → String) (outDir : String)
    (polys : List (List Point)) (acc : TState × Nat) : TState × Nat :=
  polys.foldl
    (fun a vs => (create_grid_from_bounds (roundedBounds vs)).foldl
      (processCell fetch outDir vs) a) acc

/-- Per-polygon cell count added to the `expected` counter in the source:
`expected += (xmax-xmin)*(ymax-ymin)`. -/
def expectedOfPoly (vs : List Point) : Int :=
  let rb := roundedBounds vs
  (rb.xmax - rb.xmin) * (rb.ymax - rb.ymin)

/-- The warning emitted by `geojson_feature_to_poly`: the source tests
`if not len(geojson) == 1` on the features list. -/
def featuresWarning (features : List (List Point)) : Bool :=
  !(features.length = 1)

/-- The polygon extracted by `geojson_feature_to_poly`: the source builds
`Polygon(shape(geojson[0]["geometry"]))`; indexing an empty list raises, so
the result is `none` for an empty features list. -/
def geojson_feature_to_poly (features : List (List Point)) : Option (List Point) :=
  features.head?

/-! ### Scenario 1: the square polygon (2.5, 2.5)-(2.5, 4.5)-(4.5, 4.5)-(4.5, 2.5) -/
/-- The square polygon of the first test scenario. -/
def scenarioSquare : List Point :=
  [(5/2, 5/2), (5/2, 9/2), (9/2, 9/2), (9/2, 5/2)]

/-- The nine grid cells of the scenario, in source enumeration order
(outer loop over x, inner loop over y). -/
def scenarioCells : List GridCell :=
  [⟨2, 2⟩, ⟨2, 3⟩, ⟨2, 4⟩, ⟨3, 2⟩, ⟨3, 3⟩, ⟨3, 4⟩, ⟨4, 2⟩, ⟨4, 3⟩, ⟨4, 4⟩]

/-! ## Lemmas and claim theorems -/

/-! ### Facts about the decimal printer -/
lemma digitChar_toNat : ∀ n, n < 10 → (Nat.digitChar n).toNat = 48 + n := by decide

lemma decCharsAux_congr :
    ∀ f1 f2 n, n < 10 ^ f1 → n < 10 ^ f2 → 0 < f1 → 0 < f2 →
      decCharsAux f1 n = decCharsAux f2 n := by
  intro f1
  induction f1 with
  | zero => intro _ _ _ _ h; exact absurd h (lt_irrefl 0)
  | succ k ih =>
    intro f2 n h1 h2 _ hf2
    cases f2 with
    | zero => exact absurd hf2 (lt_irrefl 0)
    | succ m =>
      simp only [decCharsAux]
      by_cases hn : n < 10
      · simp [hn]
      · simp only [hn, if_false]
        have hk : 0 < k := by
          rcases Nat.eq_zero_or_pos k with hk0 | hk0
          · subst hk0; simp at h1; omega
          · exact hk0
        have hm : 0 < m := by
          rcases Nat.eq_zero_or_pos m with hm0 | hm0
          · subst hm0; simp at h2; omega
          · exact hm0
        have hd1 : n / 10 < 10 ^ k := by
          rw [Nat.div_lt_iff_lt_mul (by norm_num)]
          calc n < 10 ^ (k + 1) := h1
          _ = 10 ^ k * 10 := by ring
        have hd2 : n / 10 < 10 ^ m := by
          rw [Nat.div_lt_iff_lt_mul (by norm_num)]
          calc n < 10 ^ (m + 1) := h2
          _ = 10 ^ m * 10 := by ring
        rw [ih m (n / 10) hd1 hd2 hk hm]

lemma decChars_def (n : Nat) :
    decChars n = if n < 10 then [Nat.digitChar n]
      else decChars (n / 10) ++ [Nat.digitChar (n % 10)] := by
  by_cases hn : n < 10
  · rw [if_pos hn]
    unfold decChars
    simp only [decCharsAux]
    rw [if_pos hn]
  · rw [if_neg hn]
    have hstep : decCharsAux (n + 1) n = decCharsAux n (n / 10) ++ [Nat.digitChar (n % 10)] := by
      simp only [decCharsAux]
      rw [if_neg hn]
    have hlt : n < 10 ^ n := Nat.lt_pow_self (by norm_num) n
    have h1 : n / 10 < 10 ^ n := lt_of_le_of_lt (Nat.div_le_self n 10) hlt
    have h2 : n / 10 < 10 ^ (n / 10 + 1) :=
      lt_of_lt_of_le (Nat.lt_pow_self (by norm_num) (n / 10))
        (Nat.pow_le_pow_right (by norm_num) (Nat.le_succ _))
    show decCharsAux (n + 1) n = decCharsAux (n / 10 + 1) (n / 10) ++ [Nat.digitChar (n % 10)]
    rw [hstep, decCharsAux_congr n (n / 10 + 1) (n / 10) h1 h2 (by omega) (by omega)]

lemma decChars_eq_specDigits : ∀ n, decChars n = specDigits n := by
  intro n
  induction n using Nat.strong_induction_on with
  | _ n ih =>
    rw [decChars_def, specDigits]
    by_cases h0 : n = 0
    · subst h0; decide
    · simp only [h0, if_false]
      by_cases hn : n < 10
      · have : Nat.digits 10 n = [n] := by
          rw [Nat.digits_def' (by norm_num : (1:Nat) < 10) (by omega)]
          simp [Nat.mod_eq_of_lt hn, Nat.div_eq_of_lt hn]
        simp [hn, this]
      · have hd : Nat.digits 10 n = n % 10 :: Nat.digits 10 (n / 10) :=
          Nat.digits_def' (by norm_num : (1:Nat) < 10) (by omega)
        have hdiv0 : n / 10 ≠ 0 := by
          intro h
          have := Nat.div_eq_of_lt (show n < 10 by omega)
          omega
        have ihd := ih (n / 10) (Nat.div_lt_self (by omega) (by norm_num))
        rw [specDigits] at ihd
        simp only [hdiv0, if_false] at ihd
        simp [hn, hd, ihd]

lemma decValue_append (l : List Char) (c : Char) :
    decValue (l ++ [c]) = decValue l * 10 + (c.toNat - 48) := by
  simp [decValue, List.foldl_append]

lemma decValue_zeros (k : Nat) (l : List Char) :
    decValue (List.replicate k '0' ++ l) = decValue l := by
  have h : ∀ m, (List.replicate m '0').foldl (fun v c => v * 10 + (c.toNat - 48)) 0 = 0 := by
    intro m
    induction m with
    | zero => rfl
    | succ i ihm =>
      rw [List.replicate_succ]
      simpa using ihm
  simp [decValue, List.foldl_append, h]

lemma decValue_decChars : ∀ n, decValue (decChars n) = n := by
  intro n
  induction n using Nat.strong_induction_on with
  | _ n ih =>
    rw [decChars_def]
    by_cases hn : n < 10
    · simp [hn, decValue, digitChar_toNat n hn]
    · have h1 := ih (n / 10) (Nat.div_lt_self (by omega) (by norm_num))
      simp only [hn, if_false]
      rw [decValue_append, h1, digitChar_toNat (n % 10) (Nat.mod_lt _ (by norm_num))]
      omega

lemma decChars_length_le : ∀ w n, 0 < w → n < 10 ^ w → (decChars n).length ≤ w := by
  intro w
  induction w with
  | zero => intro n h; exact absurd h (lt_irrefl 0)
  | succ k ih =>
    intro n _ hlt
    rw [decChars_def]
    by_cases hn : n < 10
    · simp [hn]
    · have hk : 0 < k := by
        rcases Nat.eq_zero_or_pos k with hk0 | hk0
        · subst hk0; simp at hlt; omega
        · exact hk0
      have hd : n / 10 < 10 ^ k := by
        rw [Nat.div_lt_iff_lt_mul (by norm_num)]
        calc n < 10 ^ (k + 1) := hlt
        _ = 10 ^ k * 10 := by ring
      simp only [hn, if_false, List.length_append, List.length_cons, List.length_nil]
      have := ih (n / 10) hk hd
      omega

lemma fmtNat_length (w n : Nat) (hw : 0 < w) (hn : n < 10 ^ w) :
    (fmtNat w n).length = w := by
  have h := decChars_length_le w n hw hn
  simp [fmtNat, zeroPad]
  omega

lemma decValue_fmtNat (w n : Nat) : decValue (fmtNat w n) = n := by
  rw [fmtNat, zeroPad, decValue_zeros, decValue_decChars]

/-! ### Tile naming and parsing facts -/
lemma tileName_parse (x y : Int) (hx1 : -180 ≤ x) (hx2 : x ≤ 179)
    (hy1 : -90 ≤ y) (hy2 : y ≤ 89) :
    parseTileName (tile_name x y) = some (x, y) := by
  have hy99 : y.natAbs < 10 ^ 2 := by
    rw [show (10:Nat) ^ 2 = 100 from by norm_num]
    omega
  have hx999 : x.natAbs < 10 ^ 3 := by
    rw [show (10:Nat) ^ 3 = 1000 from by norm_num]
    omega
  obtain ⟨d1, d2, hd⟩ := List.length_eq_two.mp (fmtNat_length 2 y.natAbs (by norm_num) hy99)
  obtain ⟨e1, e2, e3, he⟩ := List.length_eq_three.mp (fmtNat_length 3 x.natAbs (by norm_num) hx999)
  have hdv : decValue [d1, d2] = y.natAbs := by rw [← hd, decValue_fmtNat]
  have hev : decValue [e1, e2, e3] = x.natAbs := by rw [← he, decValue_fmtNat]
  have hdata : (tile_name x y).data =
      hemiNS y :: d1 :: d2 :: hemiWE x :: e1 :: e2 :: e3 :: ['.', 'h', 'g', 't'] := by
    show (hemiNS y :: fmtNat 2 y.natAbs ++ hemiWE x :: fmtNat 3 x.natAbs ++ ".hgt".data) = _
    rw [hd, he]
    rfl
  rw [parseTileName, hdata]
  rcases lt_or_le x 0 with hx | hx <;> rcases lt_or_le y 0 with hy | hy
  · rw [show hemiWE x = 'W' from by unfold hemiWE; rw [if_pos hx],
      show hemiNS y = 'S' from by unfold hemiNS; rw [if_pos hy]]
    simp only [if_pos (by decide :
      ['.', 'h', 'g', 't'] = ['.', 'h', 'g', 't'] ∧ ('S' = 'N' ∨ 'S' = 'S') ∧ ('W' = 'E' ∨ 'W' = 'W'))]
    simp [hdv, hev, ← Int.natCast_natAbs]
    omega
  · rw [show hemiWE x = 'W' from by unfold hemiWE; rw [if_pos hx],
      show hemiNS y = 'N' from by unfold hemiNS; rw [if_neg (not_lt.mpr hy)]]
    simp only [if_pos (by decide :
      ['.', 'h', 'g', 't'] = ['.', 'h', 'g', 't'] ∧ ('N' = 'N' ∨ 'N' = 'S') ∧ ('W' = 'E' ∨ 'W' = 'W'))]
    simp [hdv, hev, ← Int.natCast_natAbs]
    omega
  · rw [show hemiWE x = 'E' from by unfold hemiWE; rw [if_neg (not_lt.mpr hx)],
      show hemiNS y = 'S' from by unfold hemiNS; rw [if_pos hy]]
    simp only [if_pos (by decide :
      ['.', 'h', 'g', 't'] = ['.', 'h', 'g', 't'] ∧ ('S' = 'N' ∨ 'S' = 'S') ∧ ('E' = 'E' ∨ 'E' = 'W'))]
    simp [hdv, hev, ← Int.natCast_natAbs]
    omega
  · rw [show hemiWE x = 'E' from by unfold hemiWE; rw [if_neg (not_lt.mpr hx)],
      show hemiNS y = 'N' from by unfold hemiNS; rw [if_neg (not_lt.mpr hy)]]
    simp only [if_pos (by decide :
      ['.', 'h', 'g', 't'] = ['.', 'h', 'g', 't'] ∧ ('N' = 'N' ∨ 'N' = 'S') ∧ ('E' = 'E' ∨ 'E' = 'W'))]
    simp [hdv, hev, ← Int.natCast_natAbs]
    omega

lemma dirName_parse (y : Int) (hy1 : -90 ≤ y) (hy2 : y ≤ 89) :
    parseDirName (dir_name y) = some y := by
  have hy99 : y.natAbs < 10 ^ 2 := by
    rw [show (10:Nat) ^ 2 = 100 from by norm_num]
    omega
  obtain ⟨d1, d2, hd⟩ := List.length_eq_two.mp (fmtNat_length 2 y.natAbs (by norm_num) hy99)
  have hdv : decValue [d1, d2] = y.natAbs := by rw [← hd, decValue_fmtNat]
  have hdata : (dir_name y).data = [hemiNS y, d1, d2] := by
    show (hemiNS y :: fmtNat 2 y.natAbs) = _
    rw [hd]
  rw [parseDirName, hdata]
  rcases lt_or_le y 0 with hy | hy
  · rw [show hemiNS y = 'S' from by unfold hemiNS; rw [if_pos hy]]
    simp [hdv, ← Int.natCast_natAbs]
    omega
  · rw [show hemiNS y = 'N' from by unfold hemiNS; rw [if_neg (not_lt.mpr hy)]]
    simp [hdv, ← Int.natCast_natAbs]
    omega

/-! ### Basic facts about ranges, grids and bounds -/
lemma mem_intRange {a b x : Int} : x ∈ intRange a b ↔ a ≤ x ∧ x < b := by
  constructor
  · intro hx
    obtain ⟨i, hi, hxe⟩ := List.mem_map.1 hx
    have hi2 := List.mem_range.1 hi
    omega
  · intro h
    exact List.mem_map.2 ⟨(x - a).toNat, List.mem_range.2 (by omega), by omega⟩

lemma intRange_nodup (a b : Int) : (intRange a b).Nodup :=
  (List.nodup_range _).map (fun i j h => by omega)

lemma length_intRange (a b : Int) : (intRange a b).length = (b - a).toNat := by
  unfold intRange
  rw [List.length_map, List.length_range]

lemma mem_grid {b : IntBounds} {c : GridCell} :
    c ∈ create_grid_from_bounds b ↔
      b.xmin ≤ c.x ∧ c.x < b.xmax ∧ b.ymin ≤ c.y ∧ c.y < b.ymax := by
  unfold create_grid_from_bounds
  simp only [List.mem_flatMap, List.mem_map]
  constructor
  · rintro ⟨x, hx, y, hy, rfl⟩
    have h1 := mem_intRange.mp hx
    have h2 := mem_intRange.mp hy
    exact ⟨h1.1, h1.2, h2.1, h2.2⟩
  · rintro ⟨h1, h2, h3, h4⟩
    exact ⟨c.x, mem_intRange.mpr ⟨h1, h2⟩, c.y, mem_intRange.mpr ⟨h3, h4⟩, rfl⟩

lemma grid_nodup (b : IntBounds) : (create_grid_from_bounds b).Nodup := by
  unfold create_grid_from_bounds
  rw [List.nodup_flatMap]
  constructor
  · intro x _
    exact (intRange_nodup _ _).map (fun y1 y2 h => by
      injection h)
  · have h := intRange_nodup b.xmin b.xmax
    refine List.Pairwise.imp ?_ h
    intro x1 x2 hne
    intro c hc1 hc2
    simp only [List.mem_map] at hc1 hc2
    obtain ⟨y1, _, rfl⟩ := hc1
    obtain ⟨y2, _, he⟩ := hc2
    injection he with hx2 hy2
    exact hne hx2.symm

lemma length_grid (b : IntBounds) :
    (create_grid_from_bounds b).length =
      (b.xmax - b.xmin).toNat * (b.ymax - b.ymin).toNat := by
  have h : ∀ xs : List Int,
      (xs.flatMap (fun x => (intRange b.ymin b.ymax).map (fun y => GridCell.mk x y))).length =
        xs.length * (b.ymax - b.ymin).toNat := by
    intro xs
    induction xs with
    | nil => simp
    | cons x t ih =>
      rw [List.flatMap_cons, List.length_append, List.length_map, ih, length_intRange,
        List.length_cons]
      ring
  unfold create_grid_from_bounds
  rw [h, length_intRange]

lemma foldl_min_le_init (l : List ℚ) (a : ℚ) : l.foldl min a ≤ a := by
  induction l generalizing a with
  | nil => exact le_refl a
  | cons c t ih =>
    calc (c :: t).foldl min a = t.foldl min (min a c) := rfl
    _ ≤ min a c := ih _
    _ ≤ a := min_le_left _ _

lemma foldl_min_le_mem : ∀ (l : List ℚ) (a x : ℚ), x ∈ l → l.foldl min a ≤ x := by
  intro l
  induction l with
  | nil => intro a x hx; cases hx
  | cons c t ih =>
    intro a x hx
    rcases List.mem_cons.1 hx with rfl | hx2
    · calc (x :: t).foldl min a = t.foldl min (min a x) := rfl
      _ ≤ min a x := foldl_min_le_init _ _
      _ ≤ x := min_le_right _ _
    · exact ih (min a c) x hx2

lemma le_foldl_max_init (l : List ℚ) (a : ℚ) : a ≤ l.foldl max a := by
  induction l generalizing a with
  | nil => exact le_refl a
  | cons c t ih =>
    calc a ≤ max a c := le_max_left _ _
    _ ≤ t.foldl max (max a c) := ih _
    _ = (c :: t).foldl max a := rfl

lemma mem_le_foldl_max : ∀ (l : List ℚ) (a x : ℚ), x ∈ l → x ≤ l.foldl max a := by
  intro l
  induction l with
  | nil => intro a x hx; cases hx
  | cons c t ih =>
    intro a x hx
    rcases List.mem_cons.1 hx with rfl | hx2
    · calc x ≤ max a x := le_max_right _ _
      _ ≤ t.foldl max (max a x) := le_foldl_max_init _ _
      _ = (x :: t).foldl max a := rfl
    · exact ih (max a c) x hx2

lemma bounds_le {vs : List Point} {v : Point} (hv : v ∈ vs) :
    (bounds vs).xmin ≤ v.1 ∧ v.1 ≤ (bounds vs).xmax ∧
    (bounds vs).ymin ≤ v.2 ∧ v.2 ≤ (bounds vs).ymax := by
  match vs, hv with
  | w :: rest, hv =>
    rcases List.mem_cons.1 hv with rfl | hv2
    · exact ⟨foldl_min_le_init _ _, le_foldl_max_init _ _,
        foldl_min_le_init _ _, le_foldl_max_init _ _⟩
    · refine ⟨foldl_min_le_mem _ _ _ (List.mem_map_of_mem Prod.fst hv2),
        mem_le_foldl_max _ _ _ (List.mem_map_of_mem Prod.fst hv2),
        foldl_min_le_mem _ _ _ (List.mem_map_of_mem Prod.snd hv2),
        mem_le_foldl_max _ _ _ (List.mem_map_of_mem Prod.snd hv2)⟩

lemma bounds_xmin_le_xmax {vs : List Point} (h : vs ≠ []) :
    (bounds vs).xmin ≤ (bounds vs).xmax ∧ (bounds vs).ymin ≤ (bounds vs).ymax := by
  match vs, h with
  | w :: rest, _ =>
    have hb := bounds_le (List.mem_cons_self w rest)
    exact ⟨hb.1.trans hb.2.1, hb.2.2.1.trans hb.2.2.2⟩

lemma straddles_iff_sFlag (p a b : Point) :
    straddles p (a, b) ↔ ¬ (sFlag p a = sFlag p b) := by
  unfold straddles sFlag
  rcases lt_or_le p.2 a.2 with h1 | h1 <;> rcases lt_or_le p.2 b.2 with h2 | h2
  · simp [not_le.2 h1, not_le.2 h2, decide_eq_true h1, decide_eq_true h2]
  · simp [not_le.2 h1, h2, h1, decide_eq_true h1, decide_eq_false (not_lt.2 h2)]
  · simp [h1, not_le.2 h2, h2, decide_eq_false (not_lt.2 h1), decide_eq_true h2]
  · simp [not_lt.2 h1, not_lt.2 h2, decide_eq_false (not_lt.2 h1), decide_eq_false (not_lt.2 h2)]

lemma decide_straddles (p a b : Point) :
    decide (straddles p (a, b)) = ((sFlag p a) != (sFlag p b)) := by
  by_cases h : sFlag p a = sFlag p b
  · rw [decide_eq_false (fun hs => ((straddles_iff_sFlag p a b).1 hs) h), h]
    simp
  · rw [decide_eq_true ((straddles_iff_sFlag p a b).2 h)]
    cases hA : sFlag p a <;> cases hB : sFlag p b <;> simp_all

lemma parity_step (T : Nat) (u v w : Bool) (h : T % 2 = if v = w then 0 else 1) :
    (T + if (u != v) = true then 1 else 0) % 2 = if u = w then 0 else 1 := by
  cases u <;> cases v <;> cases w <;> simp_all <;> omega

lemma countP_straddles_edgesAux (p : Point) :
    ∀ (l : List Point) (first a : Point),
      ((edgesAux first (a :: l)).countP (fun e => decide (straddles p e))) % 2 =
        (if sFlag p a = sFlag p first then 0 else 1) := by
  intro l
  induction l with
  | nil =>
    intro first a
    show ([(a, first)].countP (fun e => decide (straddles p e))) % 2 = _
    rw [List.countP_cons, List.countP_nil]
    simp only [decide_straddles]
    cases hA : sFlag p a <;> cases hF : sFlag p first <;> simp
  | cons b t ih =>
    intro first a
    have hstep : edgesAux first (a :: b :: t) = (a, b) :: edgesAux first (b :: t) := rfl
    rw [hstep, List.countP_cons]
    have iht := ih first b
    simp only [decide_straddles]
    exact parity_step _ _ _ _ iht

lemma countP_straddles_even (p : Point) (vs : List Point) :
    ((edges vs).countP (fun e => decide (straddles p e))) % 2 = 0 := by
  cases vs with
  | nil => simp [edges]
  | cons v rest =>
    have h := countP_straddles_edgesAux p rest v v
    show ((edgesAux v (v :: rest)).countP (fun e => decide (straddles p e))) % 2 = 0
    rw [h, if_pos rfl]

lemma edgesAux_mem :
    ∀ (l : List Point) (first : Point) (e : Point × Point),
      e ∈ edgesAux first l → e.1 ∈ l ∧ (e.2 ∈ l ∨ e.2 = first) := by
  intro l
  induction l with
  | nil => intro first e he; cases he
  | cons a t ih =>
    intro first e he
    cases t with
    | nil =>
      have h1 : e = (a, first) := List.mem_singleton.1 he
      subst h1
      exact ⟨List.mem_singleton.2 rfl, Or.inr rfl⟩
    | cons b t2 =>
      rcases List.mem_cons.1 he with rfl | he2
      · exact ⟨List.mem_cons_self _ _, Or.inl (List.mem_cons_of_mem _ (List.mem_cons_self _ _))⟩
      · have h := ih first e he2
        refine ⟨List.mem_cons_of_mem _ h.1, ?_⟩
        rcases h.2 with h2 | h2
        · exact Or.inl (List.mem_cons_of_mem _ h2)
        · exact Or.inr h2

lemma edges_mem {vs : List Point} {e : Point × Point} (he : e ∈ edges vs) :
    e.1 ∈ vs ∧ e.2 ∈ vs := by
  cases vs with
  | nil => cases he
  | cons v rest =>
    have h := edgesAux_mem (v :: rest) v e he
    refine ⟨h.1, ?_⟩
    rcases h.2 with h2 | h2
    · exact h2
    · rw [h2]
      exact List.mem_cons_self _ _

lemma straddles_of_crossesRight {p : Point} {e : Point × Point}
    (h : crossesRight p e) : straddles p e := by
  rcases h with ⟨h1, h2, _⟩ | ⟨h1, h2, _⟩
  · exact Or.inl ⟨h1, h2⟩
  · exact Or.inr ⟨h1, h2⟩

lemma crossesRight_of_straddles_left {p : Point} {e : Point × Point}
    (ha : p.1 < e.1.1) (hb : p.1 < e.2.1) (hs : straddles p e) :
    crossesRight p e := by
  rcases hs with ⟨h1, h2⟩ | ⟨h1, h2⟩
  · left
    refine ⟨h1, h2, ?_⟩
    have e1 : 0 < (e.1.1 - p.1) * (e.2.2 - p.2) := mul_pos (by linarith) (by linarith)
    have e2 : 0 ≤ (p.2 - e.1.2) * (e.2.1 - p.1) := mul_nonneg (by linarith) (by linarith)
    unfold crossD
    nlinarith [e1, e2]
  · right
    refine ⟨h1, h2, ?_⟩
    have e1 : 0 < (e.1.2 - p.2) * (e.2.1 - p.1) := mul_pos (by linarith) (by linarith)
    have e2 : 0 ≤ (e.1.1 - p.1) * (p.2 - e.2.2) := mul_nonneg (by linarith) (by linarith)
    unfold crossD
    nlinarith [e1, e2]

lemma bounds_of_crossing {p : Point} {e : Point × Point} (h : crossesRight p e) :
    (min e.1.2 e.2.2 ≤ p.2 ∧ p.2 < max e.1.2 e.2.2) ∧ p.1 < max e.1.1 e.2.1 := by
  rcases h with ⟨h1, h2, hD⟩ | ⟨h1, h2, hD⟩
  · refine ⟨⟨le_trans (min_le_left _ _) h1, lt_of_lt_of_le h2 (le_max_right _ _)⟩, ?_⟩
    by_contra hc
    push_neg at hc
    have hx1 : e.1.1 ≤ p.1 := le_trans (le_max_left _ _) hc
    have hx2 : e.2.1 ≤ p.1 := le_trans (le_max_right _ _) hc
    unfold crossD at hD
    nlinarith [mul_nonneg (by linarith : (0:ℚ) ≤ p.1 - e.1.1) (by linarith : (0:ℚ) ≤ e.2.2 - p.2),
      mul_nonneg (by linarith : (0:ℚ) ≤ p.2 - e.1.2) (by linarith : (0:ℚ) ≤ p.1 - e.2.1)]
  · refine ⟨⟨le_trans (min_le_right _ _) h1, lt_of_lt_of_le h2 (le_max_left _ _)⟩, ?_⟩
    by_contra hc
    push_neg at hc
    have hx1 : e.1.1 ≤ p.1 := le_trans (le_max_left _ _) hc
    have hx2 : e.2.1 ≤ p.1 := le_trans (le_max_right _ _) hc
    unfold crossD at hD
    nlinarith [mul_nonneg (by linarith : (0:ℚ) ≤ p.1 - e.1.1) (by linarith : (0:ℚ) ≤ p.2 - e.2.2),
      mul_nonneg (by linarith : (0:ℚ) ≤ e.1.2 - p.2) (by linarith : (0:ℚ) ≤ p.1 - e.2.1)]

lemma crossingNumber_even_of_left {vs : List Point} {p : Point}
    (h : ∀ v ∈ vs, p.1 < v.1) : crossingNumber vs p % 2 = 0 := by
  unfold crossingNumber
  have hcong : (edges vs).countP (fun e => decide (crossesRight p e)) =
      (edges vs).countP (fun e => decide (straddles p e)) := by
    apply List.countP_congr
    intro e he
    have hm := edges_mem he
    simp only [decide_eq_true_eq]
    constructor
    · exact straddles_of_crossesRight
    · exact crossesRight_of_straddles_left (h _ hm.1) (h _ hm.2)
  rw [hcong]
  exact countP_straddles_even p vs

lemma exists_crossing_of_inside {vs : List Point} {p : Point} (h : strictlyInside vs p) :
    ∃ e ∈ edges vs, crossesRight p e := by
  unfold strictlyInside crossingNumber at h
  have hpos : 0 < (edges vs).countP (fun e => decide (crossesRight p e)) := by omega
  obtain ⟨e, he, hp⟩ := List.countP_pos_iff.1 hpos
  exact ⟨e, he, of_decide_eq_true hp⟩

/-! ### Facts about the main loop -/
lemma foldl_processPoly (fetch : String → String) (outDir : String) :
    ∀ (polys : List (List Point)) (acc : Int × (TState × Nat)),
      (polys.foldl (processPoly fetch outDir) acc).1 = acc.1 + (polys.map expectedOfPoly).sum ∧
      (polys.foldl (processPoly fetch outDir) acc).2 = runDownloads fetch outDir polys acc.2 := by
  intro polys
  induction polys with
  | nil =>
    intro acc
    exact ⟨by simp, rfl⟩
  | cons vs t ih =>
    intro acc
    have hstep : (vs :: t).foldl (processPoly fetch outDir) acc =
        t.foldl (processPoly fetch outDir) (processPoly fetch outDir acc vs) := rfl
    rw [hstep]
    obtain ⟨h1, h2⟩ := ih (processPoly fetch outDir acc vs)
    constructor
    · rw [h1]
      show acc.1 + expectedOfPoly vs + (t.map expectedOfPoly).sum = _
      rw [List.map_cons, List.sum_cons]
      ring
    · rw [h2]
      rfl

lemma foldl_processCell_snd_le (fetch : String → String) (outDir : String) (vs : List Point) :
    ∀ (cells : List GridCell) (acc : TState × Nat),
      (cells.foldl (processCell fetch outDir vs) acc).2 ≤ acc.2 + cells.length := by
  intro cells
  induction cells with
  | nil => intro acc; simp
  | cons c t ih =>
    intro acc
    have hstep : (c :: t).foldl (processCell fetch outDir vs) acc =
        t.foldl (processCell fetch outDir vs) (processCell fetch outDir vs acc c) := rfl
    rw [hstep]
    have h := ih (processCell fetch outDir vs acc c)
    have hc : (processCell fetch outDir vs acc c).2 ≤ acc.2 + 1 := by
      unfold processCell
      split
      · exact le_refl _
      · exact Nat.le_succ _
    calc (t.foldl (processCell fetch outDir vs) (processCell fetch outDir vs acc c)).2
        ≤ (processCell fetch outDir vs acc c).2 + t.length := h
    _ ≤ acc.2 + 1 + t.length := by omega
    _ = acc.2 + (c :: t).length := by simp [List.length_cons]; omega

lemma grid_length_int (vs : List Point) (h : vs ≠ []) :
    ((create_grid_from_bounds (roundedBounds vs)).length : Int) = expectedOfPoly vs := by
  obtain ⟨hxy, hyy⟩ := bounds_xmin_le_xmax h
  have hx : (roundedBounds vs).xmin ≤ (roundedBounds vs).xmax :=
    le_trans (Int.floor_le_floor hxy) (Int.floor_le_ceil _)
  have hy : (roundedBounds vs).ymin ≤ (roundedBounds vs).ymax :=
    le_trans (Int.floor_le_floor hyy) (Int.floor_le_ceil _)
  rw [length_grid]
  unfold expectedOfPoly
  push_cast [Int.toNat_of_nonneg (by omega : (0:Int) ≤ (roundedBounds vs).xmax - (roundedBounds vs).xmin),
    Int.toNat_of_nonneg (by omega : (0:Int) ≤ (roundedBounds vs).ymax - (roundedBounds vs).ymin)]
  ring

lemma run_total_le_expected (fetch : String → String) (outDir : String) :
    ∀ (polys : List (List Point)) (acc : Int × (TState × Nat)),
      (∀ vs ∈ polys, vs ≠ []) →
      ((polys.foldl (processPoly fetch outDir) acc).2.2 : Int) - acc.2.2 ≤
        (polys.foldl (processPoly fetch outDir) acc).1 - acc.1 := by
  intro polys
  induction polys with
  | nil => intro acc _; simp
  | cons vs t ih =>
    intro acc hne
    have hvs : vs ≠ [] := hne vs (List.mem_cons_self _ _)
    have hstep : (vs :: t).foldl (processPoly fetch outDir) acc =
        t.foldl (processPoly fetch outDir) (processPoly fetch outDir acc vs) := rfl
    rw [hstep]
    have iht := ih (processPoly fetch outDir acc vs) (fun w hw => hne w (List.mem_cons_of_mem _ hw))
    have h1 : (processPoly fetch outDir acc vs).1 = acc.1 + expectedOfPoly vs := rfl
    have h2 : (processPoly fetch outDir acc vs).2.2 ≤
        acc.2.2 + (create_grid_from_bounds (roundedBounds vs)).length :=
      foldl_processCell_snd_le fetch outDir vs _ _
    have h3 := grid_length_int vs hvs
    omega

/-! ### Facts about download_tile -/
lemma download_tile_eq_cached (fetch : String → String) (sw : Int × Int) (dir : String)
    (st : TState) (c : String)
    (h : st.files.lookup (tile_path dir sw.1 sw.2) = some c) :
    download_tile fetch sw dir st =
      { st with dirs := if (dir ++ "/" ++ dir_name sw.2) ∈ st.dirs then st.dirs
                        else (dir ++ "/" ++ dir_name sw.2) :: st.dirs } := by
  unfold download_tile
  simp [h]

lemma download_tile_eq_miss (fetch : String → String) (sw : Int × Int) (dir : String)
    (st : TState)
    (h : st.files.lookup (tile_path dir sw.1 sw.2) = none) :
    download_tile fetch sw dir st =
      { dirs := if (dir ++ "/" ++ dir_name sw.2) ∈ st.dirs then st.dirs
                else (dir ++ "/" ++ dir_name sw.2) :: st.dirs,
        files := (tile_path dir sw.1 sw.2, fetch (tile_url sw.1 sw.2)) :: st.files,
        fetched := st.fetched ++ [tile_url sw.1 sw.2] } := by
  unfold download_tile
  simp [h]

lemma download_tile_idem (fetch : String → String) (sw : Int × Int) (dir : String)
    (st : TState) :
    download_tile fetch sw dir (download_tile fetch sw dir st) = download_tile fetch sw dir st := by
  cases h : st.files.lookup (tile_path dir sw.1 sw.2) with
  | none =>
    rw [download_tile_eq_miss fetch sw dir st h]
    have h2 : (((tile_path dir sw.1 sw.2, fetch (tile_url sw.1 sw.2)) :: st.files).lookup
        (tile_path dir sw.1 sw.2)) = some (fetch (tile_url sw.1 sw.2)) := by
      simp [List.lookup]
    rw [download_tile_eq_cached fetch sw dir _ _ h2]
    by_cases hd : (dir ++ "/" ++ dir_name sw.2) ∈ st.dirs <;> simp [hd]
  | some c =>
    rw [download_tile_eq_cached fetch sw dir st c h]
    have h2 : (({ st with dirs := if (dir ++ "/" ++ dir_name sw.2) ∈ st.dirs then st.dirs
        else (dir ++ "/" ++ dir_name sw.2) :: st.dirs } : TState).files.lookup
        (tile_path dir sw.1 sw.2)) = some c := h
    rw [download_tile_eq_cached fetch sw dir _ _ h2]
    by_cases hd : (dir ++ "/" ++ dir_name sw.2) ∈ st.dirs <;> simp [hd]

lemma foldl_processCell_eq_filter (fetch : String → String) (outDir : String) (vs : List Point) :
    ∀ (cells : List GridCell) (acc : TState × Nat),
      cells.foldl (processCell fetch outDir vs) acc =
        (cells.filter (fun c => decide (polyIntersectsCell vs c))).foldl
          (fun a c => (download_tile fetch (c.x, c.y) outDir a.1, a.2 + 1)) acc := by
  intro cells
  induction cells with
  | nil => intro acc; rfl
  | cons c t ih =>
    intro acc
    rw [List.foldl_cons, List.filter_cons]
    by_cases hc : polyIntersectsCell vs c
    · rw [if_pos (by simpa using hc), List.foldl_cons]
      rw [ih]
      congr 1
      unfold processCell
      rw [if_pos hc]
    · rw [if_neg (by simpa using hc)]
      rw [ih]
      congr 1
      unfold processCell
      rw [if_neg hc]

lemma scenario_bounds : bounds scenarioSquare = ⟨5/2, 5/2, 9/2, 9/2⟩ := by
  show RatBounds.mk _ _ _ _ = _
  norm_num [scenarioSquare, List.map_cons, List.foldl_cons, List.foldl_nil, min_def, max_def]

lemma scenario_rounded : roundedBounds scenarioSquare = ⟨2, 2, 5, 5⟩ := by
  unfold roundedBounds
  rw [scenario_bounds]
  have h1 : ⌊(5/2 : ℚ)⌋ = 2 := by norm_num
  have h2 : ⌈(9/2 : ℚ)⌉ = 5 := by
    rw [Int.ceil_eq_iff]
    norm_num
  simp [h1, h2]

lemma scenario_inside (q : Point) (h1 : 5/2 < q.1) (h2 : q.1 < 9/2)
    (h3 : 5/2 ≤ q.2) (h4 : q.2 < 9/2) : strictlyInside scenarioSquare q := by
  unfold strictlyInside crossingNumber
  have he : edges scenarioSquare =
      [((5/2, 5/2), (5/2, 9/2)), ((5/2, 9/2), (9/2, 9/2)),
       ((9/2, 9/2), (9/2, 5/2)), ((9/2, 5/2), (5/2, 5/2))] := rfl
  rw [he]
  have hc1 : ¬ crossesRight q ((5/2, 5/2), (5/2, 9/2)) := by
    rintro (⟨ha, hb, hD⟩ | ⟨ha, hb, hD⟩)
    · unfold crossD at hD
      nlinarith
    · exact absurd ha (by norm_num; linarith)
  have hc2 : ¬ crossesRight q ((5/2, 9/2), (9/2, 9/2)) := by
    rintro (⟨ha, hb, hD⟩ | ⟨ha, hb, hD⟩)
    · exact absurd ha (by norm_num; linarith)
    · exact absurd ha (by norm_num; linarith)
  have hc3 : crossesRight q ((9/2, 9/2), (9/2, 5/2)) := by
    right
    refine ⟨by norm_num; linarith, by norm_num; linarith, ?_⟩
    unfold crossD
    nlinarith
  have hc4 : ¬ crossesRight q ((9/2, 5/2), (5/2, 5/2)) := by
    rintro (⟨ha, hb, hD⟩ | ⟨ha, hb, hD⟩)
    · norm_num at ha hb
      linarith
    · norm_num at ha hb
      linarith
  simp only [List.countP_cons, List.countP_nil, decide_eq_false hc1, decide_eq_false hc2,
    decide_eq_true hc3, decide_eq_false hc4]
  norm_num

lemma scenario_cells_intersect : ∀ c ∈ scenarioCells, polyIntersectsCell scenarioSquare c := by
  intro c hc
  simp only [scenarioCells, List.mem_cons, List.not_mem_nil, or_false] at hc
  rcases hc with rfl | rfl | rfl | rfl | rfl | rfl | rfl | rfl | rfl
  · exact Or.inl ⟨(5/2, 5/2), by simp [scenarioSquare], by unfold pointInCell; norm_num⟩
  · refine Or.inr (Or.inl ⟨((3:ℚ), (3:ℚ)), ?_, Or.inr (scenario_inside _
      (by norm_num) (by norm_num) (by norm_num) (by norm_num))⟩)
    norm_num [cellCorners, Prod.ext_iff]
  · exact Or.inl ⟨(5/2, 9/2), by simp [scenarioSquare], by unfold pointInCell; norm_num⟩
  · refine Or.inr (Or.inl ⟨((3:ℚ), (3:ℚ)), ?_, Or.inr (scenario_inside _
      (by norm_num) (by norm_num) (by norm_num) (by norm_num))⟩)
    norm_num [cellCorners, Prod.ext_iff]
  · refine Or.inr (Or.inl ⟨((3:ℚ), (3:ℚ)), ?_, Or.inr (scenario_inside _
      (by norm_num) (by norm_num) (by norm_num) (by norm_num))⟩)
    norm_num [cellCorners, Prod.ext_iff]
  · refine Or.inr (Or.inl ⟨((3:ℚ), (4:ℚ)), ?_, Or.inr (scenario_inside _
      (by norm_num) (by norm_num) (by norm_num) (by norm_num))⟩)
    norm_num [cellCorners, Prod.ext_iff]
  · exact Or.inl ⟨(9/2, 5/2), by simp [scenarioSquare], by unfold pointInCell; norm_num⟩
  · refine Or.inr (Or.inl ⟨((4:ℚ), (3:ℚ)), ?_, Or.inr (scenario_inside _
      (by norm_num) (by norm_num) (by norm_num) (by norm_num))⟩)
    norm_num [cellCorners, Prod.ext_iff]
  · exact Or.inl ⟨(9/2, 9/2), by simp [scenarioSquare], by unfold pointInCell; norm_num⟩

lemma scenario_filter :
    scenarioCells.filter (fun c => decide (polyIntersectsCell scenarioSquare c)) =
      scenarioCells := by
  rw [List.filter_eq_self]
  intro c hc
  exact decide_eq_true (scenario_cells_intersect c hc)

lemma foldl_download_snd (fetch : String → String) (outDir : String) :
    ∀ (cells : List GridCell) (acc : TState × Nat),
      (cells.foldl (fun a (c : GridCell) => (download_tile fetch (c.x, c.y) outDir a.1, a.2 + 1))
        acc).2 = acc.2 + cells.length := by
  intro cells
  induction cells with
  | nil => intro acc; simp
  | cons c t ih =>
    intro acc
    rw [List.foldl_cons, ih]
    simp [List.length_cons]
    omega

/-! ## Claims -/
/-- C1: for every integer coordinate (x, y), the tile filename produced by
`download_tile` is the hemisphere letter of latitude (S if y < 0 else N),
then the zero-padded-to-two-digits absolute latitude, then the hemisphere
letter of longitude (W if x < 0 else E), then the zero-padded-to-three-digits
absolute longitude, suffixed `.hgt`; in particular (x = -122, y = 37) yields
`N37W122.hgt` and (x = 5, y = -10) yields `S10E005.hgt`. -/
theorem C1_tile_name_format :
    (∀ x y : Int, tile_name x y = String.mk
      ((if y < 0 then 'S' else 'N') :: zeroPad 2 (specDigits y.natAbs) ++
        (if x < 0 then 'W' else 'E') :: zeroPad 3 (specDigits x.natAbs) ++ ".hgt".data)) ∧
    tile_name (-122) 37 = "N37W122.hgt" ∧ tile_name 5 (-10) = "S10E005.hgt" := by
  refine ⟨?_, by decide, by decide⟩
  intro x y
  unfold tile_name fmtNat hemiNS hemiWE
  rw [decChars_eq_specDigits, decChars_eq_specDigits]

/-- C2: for every polygon with at least 3 vertices, every point strictly
inside it lies within some 1x1 cell of the grid that
`create_grid_from_bounds` enumerates over the floored/ceiled bounding box. -/
theorem C2_grid_covers_interior (vs : List Point) (p : Point)
    (hlen : 3 ≤ vs.length) (hin : strictlyInside vs p) :
    ∃ c ∈ create_grid_from_bounds (roundedBounds vs), pointInCell c p := by
  obtain ⟨e, he, hcross⟩ := exists_crossing_of_inside hin
  obtain ⟨hm1, hm2⟩ := edges_mem he
  obtain ⟨⟨hymin1, hymax1⟩, hxmax1⟩ := bounds_of_crossing hcross
  have hb1 := bounds_le hm1
  have hb2 := bounds_le hm2
  have hymin : (bounds vs).ymin ≤ p.2 :=
    le_trans (le_min hb1.2.2.1 hb2.2.2.1) hymin1
  have hymax : p.2 < (bounds vs).ymax :=
    lt_of_lt_of_le hymax1 (max_le hb1.2.2.2 hb2.2.2.2)
  have hxmax : p.1 < (bounds vs).xmax :=
    lt_of_lt_of_le hxmax1 (max_le hb1.2.1 hb2.2.1)
  have hxmin : (bounds vs).xmin ≤ p.1 := by
    by_contra hc
    push_neg at hc
    have hall : ∀ v ∈ vs, p.1 < v.1 := fun v hv => lt_of_lt_of_le hc (bounds_le hv).1
    have heven := crossingNumber_even_of_left hall
    unfold strictlyInside at hin
    omega
  refine ⟨⟨⌊p.1⌋, ⌊p.2⌋⟩, mem_grid.2 ⟨?_, ?_, ?_, ?_⟩, ?_, ?_, ?_, ?_⟩
  · exact Int.floor_le_floor hxmin
  · exact Int.floor_lt.2 (lt_of_lt_of_le hxmax (Int.le_ceil _))
  · exact Int.floor_le_floor hymin
  · exact Int.floor_lt.2 (lt_of_lt_of_le hymax (Int.le_ceil _))
  · exact Int.floor_le p.1
  · exact (Int.lt_floor_add_one p.1).le
  · exact Int.floor_le p.2
  · exact (Int.lt_floor_add_one p.2).le

/-- C2 witness: the scenario square has at least 3 vertices, the point
(3, 3) is strictly inside it, and some enumerated cell contains (3, 3). -/
theorem C2_witness :
    3 ≤ scenarioSquare.length ∧ strictlyInside scenarioSquare ((3 : ℚ), (3 : ℚ)) ∧
    ∃ c ∈ create_grid_from_bounds (roundedBounds scenarioSquare),
      pointInCell c ((3 : ℚ), (3 : ℚ)) := by
  have hin : strictlyInside scenarioSquare ((3 : ℚ), (3 : ℚ)) :=
    scenario_inside _ (by norm_num) (by norm_num) (by norm_num) (by norm_num)
  exact ⟨by norm_num [scenarioSquare], hin,
    C2_grid_covers_interior scenarioSquare _ (by norm_num [scenarioSquare]) hin⟩

/-- C3: over an integer bounding box with xmin ≤ xmax and ymin ≤ ymax,
`create_grid_from_bounds` produces exactly one cell per pair (x, y) in the
half-open ranges, and the empty list when xmax = xmin or ymax = ymin. -/
theorem C3_grid_enumeration (b : IntBounds) (hx : b.xmin ≤ b.xmax) (hy : b.ymin ≤ b.ymax) :
    (∀ x y : Int, (create_grid_from_bounds b).count ⟨x, y⟩ =
      if b.xmin ≤ x ∧ x < b.xmax ∧ b.ymin ≤ y ∧ y < b.ymax then 1 else 0) ∧
    ((b.xmax = b.xmin ∨ b.ymax = b.ymin) → create_grid_from_bounds b = []) := by
  constructor
  · intro x y
    by_cases h : b.xmin ≤ x ∧ x < b.xmax ∧ b.ymin ≤ y ∧ y < b.ymax
    · rw [if_pos h]
      exact List.count_eq_one_of_mem (grid_nodup b) (mem_grid.2 h)
    · rw [if_neg h]
      exact List.count_eq_zero_of_not_mem (fun hm => h (mem_grid.1 hm))
  · intro h
    rw [List.eq_nil_iff_forall_not_mem]
    intro c hc
    have hm := mem_grid.1 hc
    rcases h with h | h <;> omega

/-- C3 witness: on the box (0, 0, 2, 2) the cell (0, 1) appears exactly once,
and a box with ymax = ymin yields the empty grid. -/
theorem C3_witness :
    (create_grid_from_bounds ⟨0, 0, 2, 2⟩).count ⟨0, 1⟩ = 1 ∧
    create_grid_from_bounds ⟨0, 2, 2, 2⟩ = [] := by
  constructor
  · have h := (C3_grid_enumeration ⟨0, 0, 2, 2⟩ (by decide) (by decide)).1 0 1
    rw [h]
    decide
  · exact (C3_grid_enumeration ⟨0, 2, 2, 2⟩ (by decide) (by decide)).2 (Or.inr rfl)

/-- C4: on the domain -180 ≤ x ≤ 179, -90 ≤ y ≤ 89, parsing the tile
filename (and the directory name) recovers the original coordinate, and
the naming function is injective on that domain. -/
theorem C4_naming_round_trip :
    ∀ x y : Int, -180 ≤ x → x ≤ 179 → -90 ≤ y → y ≤ 89 →
      parseTileName (tile_name x y) = some (x, y) ∧
      parseDirName (dir_name y) = some y ∧
      ∀ x2 y2 : Int, -180 ≤ x2 → x2 ≤ 179 → -90 ≤ y2 → y2 ≤ 89 →
        tile_name x y = tile_name x2 y2 → x = x2 ∧ y = y2 := by
  intro x y hx1 hx2 hy1 hy2
  refine ⟨tileName_parse x y hx1 hx2 hy1 hy2, dirName_parse y hy1 hy2, ?_⟩
  intro x2 y2 gx1 gx2 gy1 gy2 heq
  have h1 := tileName_parse x y hx1 hx2 hy1 hy2
  have h2 := tileName_parse x2 y2 gx1 gx2 gy1 gy2
  rw [heq] at h1
  have h3 := h1.symm.trans h2
  injection h3 with h4
  rw [Prod.mk.injEq] at h4
  exact ⟨h4.1, h4.2⟩

/-- C4 witness: the round trip evaluated at (-122, 37) and the directory
name at latitude -10. -/
theorem C4_witness :
    parseTileName (tile_name (-122) 37) = some (-122, 37) ∧
    parseDirName (dir_name (-10)) = some (-10) := by
  refine ⟨(C4_naming_round_trip (-122) 37 (by decide) (by decide) (by decide) (by decide)).1, ?_⟩
  exact (C4_naming_round_trip 5 (-10) (by decide) (by decide) (by decide) (by decide)).2.1

/-- C5: `download_tile` is idempotent: a second call with the same
coordinate and root directory is a no-op on files and fetches (so two calls
fetch exactly once from an initially-absent cache); when the local file
already exists the call performs zero network calls, leaves every file's
content unchanged, and returns (the embedding is a total function on
states). -/
theorem C5_download_tile_idempotent (fetch : String → String) (sw : Int × Int)
    (dir : String) (st : TState) :
    download_tile fetch sw dir (download_tile fetch sw dir st) = download_tile fetch sw dir st ∧
    (st.files.lookup (tile_path dir sw.1 sw.2) = none →
      (download_tile fetch sw dir st).fetched = st.fetched ++ [tile_url sw.1 sw.2]) ∧
    (∀ content, st.files.lookup (tile_path dir sw.1 sw.2) = some content →
      (download_tile fetch sw dir st).files = st.files ∧
      (download_tile fetch sw dir st).fetched = st.fetched) := by
  refine ⟨download_tile_idem fetch sw dir st, ?_, ?_⟩
  · intro h
    rw [download_tile_eq_miss fetch sw dir st h]
  · intro content h
    rw [download_tile_eq_cached fetch sw dir st content h]
    exact ⟨rfl, rfl⟩

/-- C5 witness: two calls on an empty cache at coordinate (5, -10) equal one
call, and the single call records exactly one fetch. -/
theorem C5_witness :
    download_tile (fun _ => "p") (5, -10) "out"
        (download_tile (fun _ => "p") (5, -10) "out" ⟨[], [], []⟩) =
      download_tile (fun _ => "p") (5, -10) "out" ⟨[], [], []⟩ ∧
    (download_tile (fun _ => "p") (5, -10) "out" ⟨[], [], []⟩).fetched = [tile_url 5 (-10)] := by
  have h := C5_download_tile_idempotent (fun _ => "p") (5, -10) "out" ⟨[], [], []⟩
  refine ⟨h.1, ?_⟩
  have h2 := h.2.1 rfl
  simpa using h2

/-- C6: scenario 1: for the square polygon with corners
(2.5, 2.5)-(2.5, 4.5)-(4.5, 4.5)-(4.5, 2.5), the rounded bounding box is
(2, 2, 5, 5), the grid enumeration yields exactly the nine cells with
southwest corners in {2, 3, 4} x {2, 3, 4}, the intersection filter keeps
all nine, and a run with an empty cache fetches nine tiles. -/
theorem C6_scenario_nine_tiles (fetch : String → String) :
    roundedBounds scenarioSquare = ⟨2, 2, 5, 5⟩ ∧
    create_grid_from_bounds ⟨2, 2, 5, 5⟩ = scenarioCells ∧
    scenarioCells.filter (fun c => decide (polyIntersectsCell scenarioSquare c)) =
      scenarioCells ∧
    (mainRun fetch true [scenarioSquare] "out" ⟨[], [], []⟩).total = 9 ∧
    (mainRun fetch true [scenarioSquare] "out" ⟨[], [], []⟩).st.fetched.length = 9 := by
  have hgrid : create_grid_from_bounds ⟨2, 2, 5, 5⟩ = scenarioCells := by decide
  refine ⟨scenario_rounded, hgrid, scenario_filter, ?_, ?_⟩
  · have hstep : (mainRun fetch true [scenarioSquare] "out" ⟨[], [], []⟩).total =
        ((create_grid_from_bounds (roundedBounds scenarioSquare)).foldl
          (processCell fetch "out" scenarioSquare) (mkdirState "out" ⟨[], [], []⟩, 0)).2 := rfl
    rw [hstep, scenario_rounded, hgrid,
      foldl_processCell_eq_filter fetch "out" scenarioSquare, scenario_filter,
      foldl_download_snd]
    rfl
  · have hstep : (mainRun fetch true [scenarioSquare] "out" ⟨[], [], []⟩).st.fetched =
        ((create_grid_from_bounds (roundedBounds scenarioSquare)).foldl
          (processCell fetch "out" scenarioSquare) (mkdirState "out" ⟨[], [], []⟩, 0)).1.fetched := rfl
    rw [hstep, scenario_rounded, hgrid,
      foldl_processCell_eq_filter fetch "out" scenarioSquare, scenario_filter]
    rfl

/-- C6 witness: the scenario instantiated at a concrete fetch function. -/
theorem C6_witness :
    (mainRun (fun _ => "payload") true [scenarioSquare] "out" ⟨[], [], []⟩).total = 9 ∧
    (mainRun (fun _ => "payload") true [scenarioSquare] "out" ⟨[], [], []⟩).st.fetched.length = 9 := by
  have h := C6_scenario_nine_tiles (fun _ => "payload")
  exact ⟨h.2.2.2.1, h.2.2.2.2⟩

/-- C7 counterexample: the claim says the zero-feature case is not a warning
case, but the source tests `if not len(geojson) == 1`, so an empty features
list does emit the warning. -/
theorem C7_counterexample : featuresWarning ([] : List (List Point)) = true := rfl

/-- C7 amended: the warning is emitted exactly when the features list does
not contain exactly one feature - more than one warns (and the first feature
is then used), exactly one does not warn, and zero features also warns. -/
theorem C7_features_warning (features : List (List Point)) :
    (featuresWarning features = true ↔ features.length ≠ 1) ∧
    (∀ p rest, features = p :: rest → geojson_feature_to_poly features = some p) := by
  constructor
  · unfold featuresWarning
    constructor
    · intro h hlen
      rw [hlen] at h
      simp at h
    · intro h
      simp [h]
  · intro p rest h
    rw [h]
    rfl

/-- C7 witness: a one-feature list produces no warning and yields its only
feature. -/
theorem C7_witness :
    featuresWarning ([[((0 : ℚ), (0 : ℚ))]] : List (List Point)) = false ∧
    geojson_feature_to_poly ([[((0 : ℚ), (0 : ℚ))]] : List (List Point)) =
      some [((0 : ℚ), (0 : ℚ))] := by
  have h := C7_features_warning ([[((0 : ℚ), (0 : ℚ))]] : List (List Point))
  constructor
  · cases hw : featuresWarning ([[((0 : ℚ), (0 : ℚ))]] : List (List Point))
    · rfl
    · exact absurd (h.1.1 hw) (by norm_num)
  · exact h.2 [((0 : ℚ), (0 : ℚ))] [] rfl

/-- C8: when the input path is not a directory, the critical error is
logged and the run aborts (the `iterdir` call raises) before any tile
fetch: no fetch is recorded, no file is written, and the counter stays 0. -/
theorem C8_invalid_input_aborts (fetch : String → String) (polys : List (List Point))
    (outDir : String) (st0 : TState) :
    (mainRun fetch false polys outDir st0).criticalLog = true ∧
    (mainRun fetch false polys outDir st0).aborted = true ∧
    (mainRun fetch false polys outDir st0).st.fetched = st0.fetched ∧
    (mainRun fetch false polys outDir st0).st.files = st0.files ∧
    (mainRun fetch false polys outDir st0).total = 0 :=
  ⟨rfl, rfl, rfl, rfl, rfl⟩

/-- C8 witness: the abort path evaluated at concrete arguments. -/
theorem C8_witness :
    (mainRun (fun _ => "") false [] "out" ⟨[], [], []⟩).aborted = true ∧
    (mainRun (fun _ => "") false [] "out" ⟨[], [], []⟩).st.fetched = [] := by
  have h := C8_invalid_input_aborts (fun _ => "") [] "out" ⟨[], [], []⟩
  exact ⟨h.2.1, h.2.2.1⟩

/-- C9: the `expected` counter accumulates exactly
(xmax - xmin) * (ymax - ymin) of the rounded bounding box per polygon, and
the downloads and the `total` counter of the run coincide with
`runDownloads`, a function in whose definition `expected` does not occur -
the counter feeds no control decision. -/
theorem C9_expected_counter (fetch : String → String) (polys : List (List Point))
    (outDir : String) (st0 : TState) :
    (mainRun fetch true polys outDir st0).expected = (polys.map expectedOfPoly).sum ∧
    ((mainRun fetch true polys outDir st0).st, (mainRun fetch true polys outDir st0).total) =
      runDownloads fetch outDir polys (mkdirState outDir st0, 0) := by
  obtain ⟨h1, h2⟩ := foldl_processPoly fetch outDir polys (0, (mkdirState outDir st0, 0))
  constructor
  · show (polys.foldl (processPoly fetch outDir) (0, (mkdirState outDir st0, 0))).1 = _
    rw [h1]
    omega
  · show ((polys.foldl (processPoly fetch outDir) (0, (mkdirState outDir st0, 0))).2.1,
      (polys.foldl (processPoly fetch outDir) (0, (mkdirState outDir st0, 0))).2.2) = _
    rw [h2]

/-- C9 witness: the accounting evaluated on an empty polygon list. -/
theorem C9_witness :
    (mainRun (fun _ => "") true [] "o" ⟨[], [], []⟩).expected = 0 ∧
    ((mainRun (fun _ => "") true [] "o" ⟨[], [], []⟩).st,
      (mainRun (fun _ => "") true [] "o" ⟨[], [], []⟩).total) =
      runDownloads (fun _ => "") "o" [] (mkdirState "o" ⟨[], [], []⟩, 0) := by
  have h := C9_expected_counter (fun _ => "") [] "o" ⟨[], [], []⟩
  refine ⟨?_, h.2⟩
  rw [h.1]
  rfl

/-- C10: at the end of a run over nonempty polygons, the number of tiles
fetched is at most the `expected` counter: per polygon the filtered cells
are a subset of the enumerated grid, whose size is the per-polygon
`expected` increment. -/
theorem C10_total_le_expected (fetch : String → String) (polys : List (List Point))
    (outDir : String) (st0 : TState) (hne : ∀ vs ∈ polys, vs ≠ []) :
    ((mainRun fetch true polys outDir st0).total : Int) ≤
      (mainRun fetch true polys outDir st0).expected := by
  have h := run_total_le_expected fetch outDir polys (0, (mkdirState outDir st0, 0)) hne
  have ht : (mainRun fetch true polys outDir st0).total =
      (polys.foldl (processPoly fetch outDir) (0, (mkdirState outDir st0, 0))).2.2 := rfl
  have hexp : (mainRun fetch true polys outDir st0).expected =
      (polys.foldl (processPoly fetch outDir) (0, (mkdirState outDir st0, 0))).1 := rfl
  rw [ht, hexp]
  simpa using h

/-- C10 witness: the invariant on a run over one concrete triangle. -/
theorem C10_witness :
    (∀ vs ∈ ([[((0 : ℚ), (0 : ℚ)), ((1 : ℚ), (0 : ℚ)), ((1 : ℚ), (1 : ℚ))]] :
        List (List Point)), vs ≠ []) ∧
    ((mainRun (fun _ => "") true
        [[((0 : ℚ), (0 : ℚ)), ((1 : ℚ), (0 : ℚ)), ((1 : ℚ), (1 : ℚ))]] "o"
        ⟨[], [], []⟩).total : Int) ≤
      (mainRun (fun _ => "") true
        [[((0 : ℚ), (0 : ℚ)), ((1 : ℚ), (0 : ℚ)), ((1 : ℚ), (1 : ℚ))]] "o"
        ⟨[], [], []⟩).expected := by
  have hne : ∀ vs ∈ ([[((0 : ℚ), (0 : ℚ)), ((1 : ℚ), (0 : ℚ)), ((1 : ℚ), (1 : ℚ))]] :
      List (List Point)), vs ≠ [] := by
    intro vs hvs
    rw [List.mem_singleton] at hvs
    subst hvs
    exact List.cons_ne_nil _ _
  exact ⟨hne, C10_total_le_expected _ _ _ _ hne⟩
